import Mathlib

/-!
Shallow embedding of the elevator hybrid ABM/DES engine (`model.py`) and
verification of its specification claims.

Modelling conventions:
* Virtual-clock times and all physical scalars are rationals (`ℚ`); the Python
  floats `10.6`, `0.97`, `3.5`, `1.5` become `53/5`, `97/100`, `7/2`, `3/2`.
* Floors are naturals (`Python` uses `range(N_floors)`).
* Random draws (`random.random`, `random.uniform`, `random.gauss`,
  `random.choice`, `np.random.exponential`) are passed in explicitly as oracle
  values / streams, so every embedded operation is a pure function of the code
  state and the draws it consumes.
* Python timestamps that start as `None` are `Option ℚ`; an arithmetic use of a
  still-`None` timestamp (a `TypeError` in Python) is modelled by returning
  `none` from the embedded operation.
-/

namespace VTS

/-- State of `RiderAgent` (`model.py`, `RiderAgent.__init__`): identity, origin
and destination floors, the three timestamps (unset until reached), the derived
durations, and the three scores. -/
structure Rider where
  unique_id : ℕ
  origin : ℕ
  dest : ℕ
  wait_start : Option ℚ := none
  wait_time : ℚ := 0
  travel_time : ℚ := 0
  journey_time : ℚ := 0
  enter_time : Option ℚ := none
  exit_time : Option ℚ := none
  satisfaction : ℚ := 0
  perceived_quality : ℚ := 0
  comfort : ℚ := 0
  deriving Repr, DecidableEq

/-- State of `ElevatorAgent` (`model.py`, `ElevatorAgent.__init__`): the
construction parameters plus the mutable `current_floor` and `passengers`. -/
structure ElevatorState where
  capacity : ℕ
  speed : ℚ
  floor_height : ℚ
  current_floor : ℕ
  passengers : List Rider
  door_time : ℚ
  reliability : ℚ
  vibration_level : ℚ
  noise_level : ℚ
  deriving Repr, DecidableEq

/-- Initial elevator state (`ElevatorAgent.__init__`): `floor_height = 3.5`,
`current_floor = 0`, empty passenger list, `reliability = 0.97`. -/
def initElevator (capacity : ℕ) (speed vibration noise door_time : ℚ) : ElevatorState :=
  { capacity := capacity
    speed := speed
    floor_height := 7/2
    current_floor := 0
    passengers := []
    door_time := door_time
    reliability := 97/100
    vibration_level := vibration
    noise_level := noise }

/-- `ElevatorAgent.move_to` (`model.py` lines 64–74): travel time is
`|floor − current_floor| * floor_height / speed`; the two library draws are
passed in as oracle values: `delayDraw` is the outcome of the test
`random.random() > self.reliability` (an event of probability
`1 − reliability`), and `extra` is the value `random.uniform(10, 30)` that is
added only when that test succeeds.  Returns the suspension duration together
with the elevator state after `current_floor = floor`. -/
def move_to (e : ElevatorState) (floor : ℕ) (delayDraw : Bool) (extra : ℚ) :
    ℚ × ElevatorState :=
  let distance : ℚ := |(floor : ℚ) - (e.current_floor : ℚ)| * e.floor_height
  let t : ℚ := distance / e.speed
  let t : ℚ := if delayDraw then t + extra else t
  (t, { e with current_floor := floor })

/-- The per-rider mutation performed inside the loop of `ElevatorAgent._unload`
(`model.py` lines 80–90): freeze `exit_time`, derive the three durations,
compute `satisfaction = max(1, min(5, 5 − wait_time/60))` and copy the last
computed `comfort` into `perceived_quality`.  Returns `none` when `enter_time`
or `wait_start` is still unset (Python would raise a `TypeError` there). -/
def exitUpdate (now : ℚ) (p : Rider) : Option Rider :=
  match p.enter_time, p.wait_start with
  | some et, some ws =>
      let wait : ℚ := et - ws
      some { p with
        exit_time := some now
        travel_time := now - et
        wait_time := wait
        journey_time := now - ws
        satisfaction := max 1 (min 5 (5 - wait / 60))
        perceived_quality := p.comfort }
  | _, _ => none

/-- `ElevatorAgent._unload` (`model.py` lines 76–93).  The Python loop builds
`exiting = [p for p in passengers if p.dest == floor]`, then for each such `p`
(in passenger-list order) updates its fields, removes it from `passengers` and
appends it to the model's completed collection.  Net effect on the value level:
the remaining passenger list is the sublist with `dest ≠ floor`, and the riders
handed to the completed collection are the `dest = floor` sublist, each sent
through `exitUpdate`, in order. -/
def unload (ps : List Rider) (floor : ℕ) (now : ℚ) :
    Option (List Rider × List Rider) := do
  let exiting := ps.filter (fun p => decide (p.dest = floor))
  let exited ← exiting.mapM (exitUpdate now)
  pure (ps.filter (fun p => decide (¬ p.dest = floor)), exited)

/-- Lines 119–126 of `ElevatorAgent.run`: `space = capacity − len(passengers)`,
`to_load = waiting[:space]`; each loaded rider gets `enter_time = now`, is
appended to `passengers` and removed from the lobby (so the lobby keeps the
suffix `waiting[space:]`).  Returns the new elevator state and the new lobby. -/
def load (e : ElevatorState) (lobby : List Rider) (now : ℚ) :
    ElevatorState × List Rider :=
  let space := e.capacity - e.passengers.length
  let to_load := lobby.take space
  ({ e with passengers :=
      e.passengers ++ to_load.map (fun r => { r with enter_time := some now }) },
   lobby.drop space)

/-- `ElevatorAgent._update_comfort` (`model.py` lines 95–104): no-op on an
empty cabin, otherwise each passenger's comfort is clamped
`base + gauss(0, 0.5)` where `base = 5 − 3*crowd − 1.5*vibration − noise/20`;
the per-passenger Gaussian draws are supplied by the oracle `g` (indexed by
position in the passenger list). -/
def update_comfort (e : ElevatorState) (g : ℕ → ℚ) : ElevatorState :=
  if e.passengers.isEmpty then e
  else
    let crowd : ℚ := (e.passengers.length : ℚ) / (e.capacity : ℚ)
    let comfort : ℚ := 5 - crowd * 3 - e.vibration_level * (3/2) - e.noise_level / 20
    { e with passengers :=
        e.passengers.mapIdx (fun i p => { p with comfort := max 1 (min 5 (comfort + g i)) }) }

/-! ### Generic lemmas about `mapM` over `Option` and about `unload` -/

/-- `mapM` over `Option` succeeds exactly on the lists whose image is related
pointwise by `f · = some ·`. -/
theorem mapM_option_eq_some {α β : Type} (f : α → Option β) :
    ∀ (l : List α) (out : List β),
      l.mapM f = some out ↔ List.Forall₂ (fun a b => f a = some b) l out := by
  intro l
  induction l with
  | nil =>
      intro out
      constructor
      · intro h
        simp only [List.mapM_nil, pure, Option.some_inj] at h
        subst h; exact List.Forall₂.nil
      · intro h; cases h; rfl
  | cons a l ih =>
      intro out
      constructor
      · intro h
        rw [List.mapM_cons] at h
        cases ha : f a with
        | none => rw [ha] at h; simp at h
        | some b =>
            rw [ha] at h
            cases hl : l.mapM f with
            | none => rw [hl] at h; simp at h
            | some bs =>
                rw [hl] at h
                simp only [Option.bind_eq_bind, Option.some_bind, pure,
                  Option.some_inj] at h
                subst h
                exact List.Forall₂.cons ha ((ih bs).mp hl)
      · intro h
        cases h with
        | cons hab htl =>
            rw [List.mapM_cons, hab, (ih _).mpr htl]
            rfl

/-- Characterisation of a successful `unload`: the remaining passengers are
exactly those with a different destination, and the completed riders are the
matching passengers, in order, each transformed by `exitUpdate now`. -/
theorem unload_eq_some (ps : List Rider) (floor : ℕ) (now : ℚ)
    (rem ex : List Rider) :
    unload ps floor now = some (rem, ex) ↔
      rem = ps.filter (fun p => decide (¬ p.dest = floor)) ∧
      List.Forall₂ (fun p q => exitUpdate now p = some q)
        (ps.filter (fun p => decide (p.dest = floor))) ex := by
  unfold unload
  cases h : (ps.filter (fun p => decide (p.dest = floor))).mapM (exitUpdate now) with
  | none =>
      simp only [Option.bind_eq_bind, h, Option.none_bind]
      constructor
      · intro hc; exact absurd hc (by simp)
      · rintro ⟨-, hall⟩
        exact absurd ((mapM_option_eq_some _ _ _).mpr hall) (by rw [h]; simp)
  | some out =>
      simp only [Option.bind_eq_bind, h, Option.some_bind, pure, Option.some_inj,
        Prod.mk.injEq]
      constructor
      · rintro ⟨h1, h2⟩
        exact ⟨h1.symm, h2 ▸ (mapM_option_eq_some _ _ _).mp h⟩
      · rintro ⟨h1, h2⟩
        have := (mapM_option_eq_some _ _ _).mpr h2
        rw [h] at this
        exact ⟨h1.symm, (Option.some_inj.mp this)⟩

/-- An `exitUpdate` succeeds exactly when both timestamps are set, and then the
result is the rider with the exit fields filled in. -/
theorem exitUpdate_eq_some (now : ℚ) (p q : Rider) :
    exitUpdate now p = some q ↔
      ∃ et ws, p.enter_time = some et ∧ p.wait_start = some ws ∧
        q = { p with
          exit_time := some now
          travel_time := now - et
          wait_time := et - ws
          journey_time := now - ws
          satisfaction := max 1 (min 5 (5 - (et - ws) / 60))
          perceived_quality := p.comfort } := by
  unfold exitUpdate
  cases het : p.enter_time with
  | none => simp [het]
  | some et =>
      cases hws : p.wait_start with
      | none => simp [het, hws]
      | some ws =>
          simp only [het, hws, Option.some_inj]
          constructor
          · intro h; exact ⟨et, ws, rfl, rfl, h.symm⟩
          · rintro ⟨et', ws', het', hws', hq⟩
            obtain rfl : et = et' := by simpa using het'
            obtain rfl : ws = ws' := by simpa using hws'
            exact hq.symm

/-! ### Building-level state and the rider-moving operations

`BuildingModel` owns the per-floor lobbies (`lobby_waiting`, a dict keyed by
`0 .. N_floors−1`, embedded as a list indexed by floor), the elevators, and the
completed collection `exited_riders`.  The three operations that move riders
between these locations are: a rider arrival (`RiderAgent.step`, called from
`generate_riders`), the load part of an elevator stop, and the unload part of a
stop (both from `ElevatorAgent.run`). -/

/-- The rider-holding state of `BuildingModel` (`model.py` lines 176–182):
per-floor lobbies, elevators, completed riders. -/
structure BuildingState where
  lobby_waiting : List (List Rider)
  elevators : List ElevatorState
  exited_riders : List Rider
  deriving Repr, DecidableEq

/-- The identities of every rider currently held somewhere in the building:
all lobbies, then all elevator passenger lists, then the completed
collection. -/
def riderIds (b : BuildingState) : List ℕ :=
  (b.lobby_waiting.flatten
      ++ (b.elevators.map ElevatorState.passengers).flatten
      ++ b.exited_riders).map Rider.unique_id

/-- The three operations that move riders between locations.  `arrive r now` is
`RiderAgent.step` at clock `now` (sets `wait_start`, appends to the origin
lobby); `stopLoad i floor now` / `stopUnload i floor now` are the load /
unload parts of a stop of elevator `i` at `floor` inside
`ElevatorAgent.run`. -/
inductive BuildingOp where
  | arrive (r : Rider) (now : ℚ)
  | stopLoad (i : ℕ) (floor : ℕ) (now : ℚ)
  | stopUnload (i : ℕ) (floor : ℕ) (now : ℚ)

/-- `RiderAgent.step` at clock `now` (`model.py` lines 27–34): set
`wait_start = env.now` and append the rider to its origin floor's lobby.
`none` models the `KeyError` on a floor outside the lobby dict. -/
def applyArrive (b : BuildingState) (r : Rider) (now : ℚ) : Option BuildingState :=
  if h : r.origin < b.lobby_waiting.length then
    some { b with
      lobby_waiting := b.lobby_waiting.set r.origin
        (b.lobby_waiting[r.origin] ++ [{ r with wait_start := some now }]) }
  else none

/-- The load part of a stop of elevator `i` at `floor` (`ElevatorAgent.run`
lines 119–126), lifted to the building state. -/
def applyLoad (b : BuildingState) (i floor : ℕ) (now : ℚ) : Option BuildingState :=
  if hi : i < b.elevators.length then
    if hf : floor < b.lobby_waiting.length then
      some { b with
        elevators := b.elevators.set i
          (load b.elevators[i] b.lobby_waiting[floor] now).1
        lobby_waiting := b.lobby_waiting.set floor
          (load b.elevators[i] b.lobby_waiting[floor] now).2 }
    else none
  else none

/-- The unload part of a stop of elevator `i` at `floor`
(`ElevatorAgent._unload`), lifted to the building state: the exiting riders are
appended to `exited_riders`. -/
def applyUnload (b : BuildingState) (i floor : ℕ) (now : ℚ) : Option BuildingState :=
  if hi : i < b.elevators.length then
    (unload b.elevators[i].passengers floor now).map (fun pr =>
      { b with
        elevators := b.elevators.set i { b.elevators[i] with passengers := pr.1 }
        exited_riders := b.exited_riders ++ pr.2 })
  else none

/-- Apply one building-level operation. -/
def applyBOp (b : BuildingState) : BuildingOp → Option BuildingState
  | .arrive r now => applyArrive b r now
  | .stopLoad i floor now => applyLoad b i floor now
  | .stopUnload i floor now => applyUnload b i floor now

/-- Strengthened monotonicity for `Forall₂`: the pointwise implication may use
membership in the first list. -/
theorem forall₂_imp_mem {α β : Type} {r r' : α → β → Prop} :
    ∀ {l1 : List α} {l2 : List β}, List.Forall₂ r l1 l2 →
      (∀ a ∈ l1, ∀ b, r a b → r' a b) → List.Forall₂ r' l1 l2 := by
  intro l1 l2 h
  induction h with
  | nil => intro _; exact List.Forall₂.nil
  | cons hab htl ih =>
      intro hmem
      exact List.Forall₂.cons (hmem _ (List.mem_cons_self _ _) _ hab)
        (ih fun a ha b hr => hmem a (List.mem_cons_of_mem _ ha) b hr)

/-- C1.  At an elevator stop at floor `f`, the unload step moves exactly the
passengers destined for `f` to the completed collection: each such rider, in
passenger-list order, gets `exit_time = now` (the current virtual clock),
`travel_time = exit_time − enter_time`, `wait_time = enter_time − wait_start`,
`journey_time = exit_time − wait_start`,
`satisfaction = clamp(5 − wait_time/60, 1, 5)` and
`perceived_quality` equal to its last computed `comfort`; the remaining
passenger list keeps exactly the passengers with a different destination, and
the lobbies are untouched. -/
theorem unload_moves_exactly_destined (b : BuildingState) (i f : ℕ) (now : ℚ)
    (b' : BuildingState) (hi : i < b.elevators.length)
    (happ : applyBOp b (.stopUnload i f now) = some b') :
    b'.lobby_waiting = b.lobby_waiting ∧
    b'.elevators = b.elevators.set i
      { b.elevators[i] with passengers :=
          b.elevators[i].passengers.filter (fun p => decide (¬ p.dest = f)) } ∧
    b'.exited_riders.take b.exited_riders.length = b.exited_riders ∧
    List.Forall₂ (fun p q =>
        p.dest = f ∧
        ∃ et ws, p.enter_time = some et ∧ p.wait_start = some ws ∧
          q.exit_time = some now ∧ q.travel_time = now - et ∧
          q.wait_time = et - ws ∧ q.journey_time = now - ws ∧
          q.satisfaction = max 1 (min 5 (5 - (et - ws) / 60)) ∧
          q.perceived_quality = p.comfort ∧
          q.unique_id = p.unique_id ∧ q.dest = p.dest)
      (b.elevators[i].passengers.filter (fun p => decide (p.dest = f)))
      (b'.exited_riders.drop b.exited_riders.length) := by
  have happ' : applyUnload b i f now = some b' := happ
  unfold applyUnload at happ'
  rw [dif_pos hi] at happ'
  clear happ
  rename' happ' => happ
  cases hu : unload b.elevators[i].passengers f now with
  | none => rw [hu] at happ; simp at happ
  | some pr =>
      rw [hu] at happ
      obtain ⟨rem, ex⟩ := pr
      obtain ⟨hrem, hall⟩ := (unload_eq_some _ _ _ _ _).mp hu
      have hb : ({ b with
          elevators := b.elevators.set i { b.elevators[i] with passengers := rem }
          exited_riders := b.exited_riders ++ ex } : BuildingState) = b' :=
        Option.some_inj.mp happ
      subst hb
      refine ⟨rfl, ?_, ?_, ?_⟩
      · rw [hrem]
      · simp
      · have hdrop :
            (b.exited_riders ++ ex).drop b.exited_riders.length = ex := by simp
        rw [show ({ b with
            elevators := b.elevators.set i { b.elevators[i] with passengers := rem }
            exited_riders := b.exited_riders ++ ex } : BuildingState).exited_riders
          = b.exited_riders ++ ex from rfl, hdrop]
        refine forall₂_imp_mem hall ?_
        intro p hp q hpq
        have hpd : p.dest = f := by simpa using (List.mem_filter.mp hp).2
        obtain ⟨et, ws, het, hws, hq⟩ := (exitUpdate_eq_some _ _ _).mp hpq
        subst hq
        exact ⟨hpd, et, ws, het, hws, rfl, rfl, rfl, rfl, rfl, rfl, rfl, rfl⟩

/-- Concrete rider for the C1 witness: aboard, destined for floor 2. -/
def rC1a : Rider :=
  { unique_id := 1, origin := 0, dest := 2, wait_start := some 1,
    enter_time := some 5, comfort := 3 }

/-- Concrete rider for the C1 witness: aboard, destined for floor 3. -/
def rC1b : Rider :=
  { unique_id := 2, origin := 0, dest := 3, wait_start := some 1,
    enter_time := some 5 }

/-- Concrete building for the C1 witness: one elevator at floor 2 holding the
two riders above. -/
def bC1 : BuildingState :=
  { lobby_waiting := [[], [], [], []]
    elevators := [{ capacity := 16, speed := 3, floor_height := 7/2,
                    current_floor := 2, passengers := [rC1a, rC1b],
                    door_time := 53/5, reliability := 97/100,
                    vibration_level := 101/100, noise_level := 559/10 }]
    exited_riders := [] }

/-- Result of unloading elevator 0 of `bC1` at floor 2 at clock 9. -/
def bC1r : BuildingState := (applyBOp bC1 (.stopUnload 0 2 9)).getD ⟨[], [], []⟩

/-- Witness for C1 at the concrete building `bC1`. -/
theorem unload_moves_exactly_destined_witness :
    bC1r.lobby_waiting = bC1.lobby_waiting ∧
    bC1r.exited_riders.take bC1.exited_riders.length = bC1.exited_riders := by
  have hsome : (applyBOp bC1 (.stopUnload 0 2 9)).isSome = true := by decide
  have happ : applyBOp bC1 (.stopUnload 0 2 9) = some bC1r := by
    cases h : applyBOp bC1 (.stopUnload 0 2 9) with
    | none => rw [h] at hsome; exact absurd hsome (by simp)
    | some x => rw [show bC1r = x by rw [bC1r, h]; rfl]
  have h := unload_moves_exactly_destined bC1 0 2 9 bC1r (by decide) happ
  exact ⟨h.1, h.2.2.1⟩

/-! ### The elevator's own state changes as a sequence of operations (C2)

The only code that ever touches one elevator's `passengers` is its own SimPy
process `ElevatorAgent.run`: moves, door waits, `_unload`, the load block and
`_update_comfort`.  An arbitrary interleaving of those is a `List ElevOp`. -/

/-- One primitive state change of an elevator inside `ElevatorAgent.run`. -/
inductive ElevOp where
  | move (floor : ℕ) (delayDraw : Bool) (extra : ℚ)
  | door
  | unloadAt (floor : ℕ) (now : ℚ)
  | loadFrom (lobby : List Rider) (now : ℚ)
  | comfort (g : ℕ → ℚ)

/-- Apply one primitive elevator operation to the elevator's state. -/
def applyElevOp (e : ElevatorState) : ElevOp → Option ElevatorState
  | .move f d x => some (move_to e f d x).2
  | .door => some e
  | .unloadAt f now =>
      (unload e.passengers f now).map (fun pr => { e with passengers := pr.1 })
  | .loadFrom lobby now => some (load e lobby now).1
  | .comfort g => some (update_comfort e g)

/-- Run a sequence of elevator operations. -/
def runElevOps (e : ElevatorState) (ops : List ElevOp) : Option ElevatorState :=
  ops.foldlM applyElevOp e

theorem applyElevOp_capacity_eq (e : ElevatorState) (op : ElevOp)
    (e' : ElevatorState) (h : applyElevOp e op = some e') :
    e'.capacity = e.capacity := by
  cases op with
  | move f d x =>
      rw [← Option.some_inj.mp h]; rfl
  | door => rw [← Option.some_inj.mp h]
  | unloadAt f now =>
      simp only [applyElevOp] at h
      cases hu : unload e.passengers f now with
      | none => rw [hu] at h; simp at h
      | some pr =>
          rw [hu] at h
          rw [← Option.some_inj.mp h]
  | loadFrom lobby now =>
      rw [← Option.some_inj.mp h]; rfl
  | comfort g =>
      rw [← Option.some_inj.mp h]
      unfold update_comfort
      split <;> rfl

theorem applyElevOp_card_le (e : ElevatorState) (op : ElevOp)
    (e' : ElevatorState) (h : applyElevOp e op = some e')
    (hle : e.passengers.length ≤ e.capacity) :
    e'.passengers.length ≤ e.capacity := by
  cases op with
  | move f d x =>
      rw [← Option.some_inj.mp h]; exact hle
  | door => rw [← Option.some_inj.mp h]; exact hle
  | unloadAt f now =>
      simp only [applyElevOp] at h
      cases hu : unload e.passengers f now with
      | none => rw [hu] at h; simp at h
      | some pr =>
          rw [hu] at h
          obtain ⟨rem, ex⟩ := pr
          obtain ⟨hrem, -⟩ := (unload_eq_some _ _ _ _ _).mp hu
          rw [← Option.some_inj.mp h]
          show rem.length ≤ e.capacity
          rw [hrem]
          exact le_trans (List.length_filter_le _ _) hle
  | loadFrom lobby now =>
      rw [← Option.some_inj.mp h]
      simp only [load, List.length_append, List.length_map, List.length_take]
      omega
  | comfort g =>
      rw [← Option.some_inj.mp h]
      unfold update_comfort
      split
      · exact hle
      · simpa using hle

/-- Invariant propagation along any operation sequence. -/
theorem runElevOps_card_le : ∀ (ops : List ElevOp) (e e' : ElevatorState),
    runElevOps e ops = some e' → e.passengers.length ≤ e.capacity →
    e'.passengers.length ≤ e'.capacity := by
  intro ops
  induction ops with
  | nil =>
      intro e e' h hle
      rw [← Option.some_inj.mp h]; exact hle
  | cons op ops ih =>
      intro e e' h hle
      rw [show runElevOps e (op :: ops) = (applyElevOp e op).bind
          (fun e1 => runElevOps e1 ops) from rfl] at h
      cases ha : applyElevOp e op with
      | none => rw [ha] at h; simp at h
      | some e1 =>
          rw [ha, Option.some_bind] at h
          have hcap := applyElevOp_capacity_eq e op e1 ha
          exact ih e1 e' h (hcap ▸ applyElevOp_card_le e op e1 ha hle)

/-- C2.  Along any sequence of elevator operations starting from a state
satisfying `len(passengers) ≤ capacity` (as the initial empty elevator does),
the passenger count never exceeds the capacity; and a Load step takes exactly
the first `capacity − len(passengers)` lobby riders in arrival order, stamps
each with `enter_time = now`, appends them to `passengers` (still within
capacity) and leaves the rest of the lobby. -/
theorem passengers_le_capacity_and_load_fifo (e : ElevatorState)
    (ops : List ElevOp) (e' : ElevatorState)
    (h0 : e.passengers.length ≤ e.capacity)
    (hrun : runElevOps e ops = some e') :
    e'.passengers.length ≤ e'.capacity ∧
    ∀ lobby now,
      (load e' lobby now).1.passengers =
        e'.passengers ++ (lobby.take (e'.capacity - e'.passengers.length)).map
          (fun r => { r with enter_time := some now }) ∧
      (load e' lobby now).2 = lobby.drop (e'.capacity - e'.passengers.length) ∧
      (load e' lobby now).1.passengers.length ≤ e'.capacity := by
  have hle := runElevOps_card_le ops e e' hrun h0
  refine ⟨hle, ?_⟩
  intro lobby now
  refine ⟨rfl, rfl, ?_⟩
  simp only [load, List.length_append, List.length_map, List.length_take]
  omega

/-- Concrete elevator for the C2 witness. -/
def eC2 : ElevatorState :=
  initElevator 16 3 (101/100) (559/10) (53/5)

/-- Concrete operation sequence for the C2 witness: a full stop cycle. -/
def opsC2 : List ElevOp :=
  [.move 1 false 0, .door,
   .unloadAt 1 5,
   .loadFrom [{ unique_id := 7, origin := 1, dest := 2, wait_start := some 2 }] 5,
   .comfort (fun _ => 0),
   .move 2 false 0, .door, .unloadAt 2 8, .comfort (fun _ => 0)]

/-- Result elevator state of the C2 witness run. -/
def eC2r : ElevatorState := (runElevOps eC2 opsC2).getD eC2

/-- Witness for C2 at the concrete run `opsC2`. -/
theorem passengers_le_capacity_witness :
    eC2r.passengers.length ≤ eC2r.capacity := by
  have hsome : (runElevOps eC2 opsC2).isSome = true := by decide
  have hrun : runElevOps eC2 opsC2 = some eC2r := by
    cases h : runElevOps eC2 opsC2 with
    | none => rw [h] at hsome; exact absurd hsome (by simp)
    | some x => rw [show eC2r = x by rw [eC2r, h]; rfl]
  exact (passengers_le_capacity_and_load_fifo eC2 opsC2 eC2r (by decide) hrun).1

/-! ### Rider-location exclusivity (C3) -/

theorem exitUpdate_uid (now : ℚ) (p q : Rider) (h : exitUpdate now p = some q) :
    q.unique_id = p.unique_id := by
  obtain ⟨et, ws, -, -, hq⟩ := (exitUpdate_eq_some now p q).mp h
  subst hq; rfl

theorem forall₂_exit_map_uid (now : ℚ) :
    ∀ {l ex : List Rider},
      List.Forall₂ (fun p q => exitUpdate now p = some q) l ex →
      ex.map Rider.unique_id = l.map Rider.unique_id := by
  intro l ex h
  induction h with
  | nil => rfl
  | cons hab _ ih => simp [ih, exitUpdate_uid _ _ _ hab]

/-- Decomposition of a flattened list-of-lists around one index. -/
theorem flatten_slot_decomp {α : Type} (L : List (List α)) (f : ℕ)
    (h : f < L.length) :
    L.flatten = (L.take f).flatten ++ (L[f] ++ (L.drop (f + 1)).flatten) := by
  conv_lhs => rw [← List.take_append_drop f L,
    ← List.getElem_cons_drop L f h]
  rw [List.flatten_append, List.flatten_cons]

/-- Flattening after updating one slot. -/
theorem flatten_set_decomp {α : Type} (L : List (List α)) (f : ℕ) (x : List α)
    (h : f < L.length) :
    (L.set f x).flatten = (L.take f).flatten ++ (x ++ (L.drop (f + 1)).flatten) := by
  rw [List.set_eq_take_cons_drop x h, List.flatten_append, List.flatten_cons]

/-- An arrival adds exactly the new rider's identity to the building. -/
theorem riderIds_arrive_perm (b : BuildingState) (r : Rider) (now : ℚ)
    (b' : BuildingState) (happ : applyArrive b r now = some b') :
    (riderIds b').Perm (riderIds b ++ [r.unique_id]) := by
  by_cases h : r.origin < b.lobby_waiting.length
  · unfold applyArrive at happ
    rw [dif_pos h] at happ
    have hb := Option.some_inj.mp happ
    subst hb
    rw [← Multiset.coe_eq_coe]
    simp only [riderIds]
    rw [flatten_set_decomp _ _ _ h]
    conv_rhs => rw [flatten_slot_decomp b.lobby_waiting r.origin h]
    simp only [List.map_append, List.map_cons, List.map_nil]
    simp only [← Multiset.coe_add]
    abel
  · unfold applyArrive at happ
    rw [dif_neg h] at happ
    exact absurd happ (by simp)

/-- A load step only moves riders from a lobby into an elevator: the multiset
of held identities is unchanged. -/
theorem riderIds_load_perm (b : BuildingState) (i f : ℕ) (now : ℚ)
    (b' : BuildingState) (happ : applyLoad b i f now = some b') :
    (riderIds b').Perm (riderIds b) := by
  by_cases hi : i < b.elevators.length
  · by_cases hf : f < b.lobby_waiting.length
    · unfold applyLoad at happ
      rw [dif_pos hi, dif_pos hf] at happ
      have hb := Option.some_inj.mp happ
      subst hb
      rw [← Multiset.coe_eq_coe]
      simp only [riderIds]
      have hmapset : (b.elevators.set i
            (load b.elevators[i] b.lobby_waiting[f] now).1).map ElevatorState.passengers
          = (b.elevators.map ElevatorState.passengers).set i
              (load b.elevators[i] b.lobby_waiting[f] now).1.passengers :=
        List.map_set ..
      have hi' : i < (b.elevators.map ElevatorState.passengers).length := by
        simpa using hi
      rw [hmapset, flatten_set_decomp _ _ _ hi', flatten_set_decomp _ _ _ hf]
      conv_rhs => rw [flatten_slot_decomp b.lobby_waiting f hf,
        flatten_slot_decomp (b.elevators.map ElevatorState.passengers) i hi']
      have hslot : (b.elevators.map ElevatorState.passengers)[i]
          = b.elevators[i].passengers := by
        simp
      rw [hslot]
      simp only [load]
      have huid : ((b.lobby_waiting[f].take
              (b.elevators[i].capacity - b.elevators[i].passengers.length)).map
                (fun r => { r with enter_time := some now })).map Rider.unique_id
          = (b.lobby_waiting[f].take
              (b.elevators[i].capacity - b.elevators[i].passengers.length)).map
                Rider.unique_id := by
        rw [List.map_map]; rfl
      simp only [List.map_append, huid]
      conv_rhs => rw [← List.take_append_drop
        (b.elevators[i].capacity - b.elevators[i].passengers.length)
        b.lobby_waiting[f]]
      simp only [List.map_append]
      simp only [← Multiset.coe_add]
      abel
    · unfold applyLoad at happ
      rw [dif_pos hi, dif_neg hf] at happ
      exact absurd happ (by simp)
  · unfold applyLoad at happ
    rw [dif_neg hi] at happ
    exact absurd happ (by simp)

/-- An unload step only moves riders from an elevator to the completed
collection: the multiset of held identities is unchanged. -/
theorem riderIds_unload_perm (b : BuildingState) (i f : ℕ) (now : ℚ)
    (b' : BuildingState) (happ : applyUnload b i f now = some b') :
    (riderIds b').Perm (riderIds b) := by
  by_cases hi : i < b.elevators.length
  · unfold applyUnload at happ
    rw [dif_pos hi] at happ
    cases hu : unload b.elevators[i].passengers f now with
    | none => rw [hu] at happ; exact absurd happ (by simp)
    | some pr =>
        rw [hu] at happ
        obtain ⟨rem, ex⟩ := pr
        obtain ⟨hrem, hall⟩ := (unload_eq_some _ _ _ _ _).mp hu
        have hb : ({ b with
            elevators := b.elevators.set i
              { b.elevators[i] with passengers := rem }
            exited_riders := b.exited_riders ++ ex } : BuildingState) = b' :=
          Option.some_inj.mp happ
        subst hb
        rw [← Multiset.coe_eq_coe]
        simp only [riderIds]
        have hmapset : (b.elevators.set i
              { b.elevators[i] with passengers := rem }).map ElevatorState.passengers
            = (b.elevators.map ElevatorState.passengers).set i rem :=
          List.map_set ..
        have hi' : i < (b.elevators.map ElevatorState.passengers).length := by
          simpa using hi
        rw [hmapset, flatten_set_decomp _ _ _ hi']
        conv_rhs => rw [flatten_slot_decomp (b.elevators.map ElevatorState.passengers) i hi']
        have hslot : (b.elevators.map ElevatorState.passengers)[i]
            = b.elevators[i].passengers := by
          simp
        rw [hslot, hrem]
        have hexuid : ex.map Rider.unique_id
            = (b.elevators[i].passengers.filter
                (fun p => decide (p.dest = f))).map Rider.unique_id :=
          forall₂_exit_map_uid now hall
        have hsplit : ((b.elevators[i].passengers.filter
                (fun p => decide (p.dest = f))).map Rider.unique_id : Multiset ℕ)
              + ((b.elevators[i].passengers.filter
                (fun p => decide (¬ p.dest = f))).map Rider.unique_id : Multiset ℕ)
            = ((b.elevators[i].passengers.map Rider.unique_id : List ℕ) : Multiset ℕ) := by
          rw [Multiset.coe_add, Multiset.coe_eq_coe]
          have hnot : (fun p : Rider => decide (¬ p.dest = f))
              = fun p : Rider => !(decide (p.dest = f)) := by
            funext p; simp [decide_not]
          rw [hnot, ← List.map_append]
          exact (List.filter_append_perm _ _).map Rider.unique_id
        simp only [List.map_append, hexuid]
        simp only [← Multiset.coe_add]
        rw [← hsplit]
        abel
  · unfold applyUnload at happ
    rw [dif_neg hi] at happ
    exact absurd happ (by simp)

/-- C3.  Every building operation preserves rider-location exclusivity: if no
rider identity is held in two places (across all lobbies, all elevator
passenger lists and the completed collection) and any arriving rider is fresh,
then after the operation no rider identity is held in two places. -/
theorem rider_location_exclusive (b : BuildingState) (op : BuildingOp)
    (b' : BuildingState) (hinv : (riderIds b).Nodup)
    (hfresh : ∀ r now, op = .arrive r now → r.unique_id ∉ riderIds b)
    (happ : applyBOp b op = some b') :
    (riderIds b').Nodup := by
  cases op with
  | arrive r now =>
      have hperm := riderIds_arrive_perm b r now b' happ
      refine hperm.nodup_iff.mpr ?_
      rw [List.nodup_append]
      refine ⟨hinv, List.nodup_singleton _, ?_⟩
      intro a ha ha'
      have : a = r.unique_id := by simpa using ha'
      exact hfresh r now rfl (this ▸ ha)
  | stopLoad i f now =>
      exact (riderIds_load_perm b i f now b' happ).nodup_iff.mpr hinv
  | stopUnload i f now =>
      exact (riderIds_unload_perm b i f now b' happ).nodup_iff.mpr hinv

/-- Fresh rider for the C3 witness. -/
def rC3 : Rider := { unique_id := 5, origin := 0, dest := 1 }

/-- Concrete building for the C3 witness: one rider in a lobby, one aboard,
one completed, all with distinct identities. -/
def bC3 : BuildingState :=
  { lobby_waiting := [[{ unique_id := 1, origin := 0, dest := 1, wait_start := some 0 }], []]
    elevators := [{ capacity := 16, speed := 3, floor_height := 7/2,
                    current_floor := 0,
                    passengers := [{ unique_id := 2, origin := 0, dest := 1,
                                     wait_start := some 0, enter_time := some 1 }],
                    door_time := 53/5, reliability := 97/100,
                    vibration_level := 101/100, noise_level := 559/10 }]
    exited_riders := [{ unique_id := 3, origin := 1, dest := 0,
                        wait_start := some 0, enter_time := some 1,
                        exit_time := some 2 }] }

/-- Result of the C3 witness arrival. -/
def bC3r : BuildingState := (applyBOp bC3 (.arrive rC3 4)).getD ⟨[], [], []⟩

/-- Witness for C3: after a fresh arrival into `bC3`, exclusivity still holds. -/
theorem rider_location_exclusive_witness : (riderIds bC3r).Nodup := by
  have hsome : (applyBOp bC3 (.arrive rC3 4)).isSome = true := by decide
  have happ : applyBOp bC3 (.arrive rC3 4) = some bC3r := by
    cases h : applyBOp bC3 (.arrive rC3 4) with
    | none => rw [h] at hsome; exact absurd hsome (by simp)
    | some x => rw [show bC3r = x by rw [bC3r, h]; rfl]
  refine rider_location_exclusive bC3 (.arrive rC3 4) bC3r (by decide) ?_ happ
  intro r now h
  injection h with h1 h2
  subst h1
  decide

/-! ### Timestamp ordering and duration algebra (C4) -/

/-- C4.  For a rider completed by `_unload` at clock `now`, provided the clock
was monotone across its lifecycle (`wait_start ≤ enter_time ≤ now`, which the
event queue guarantees), the frozen record satisfies
`wait_start ≤ enter_time ≤ exit_time` and exactly
`wait_time + travel_time = journey_time`. -/
theorem completed_rider_time_algebra (p q : Rider) (now et ws : ℚ)
    (hen : p.enter_time = some et) (hws : p.wait_start = some ws)
    (h1 : ws ≤ et) (h2 : et ≤ now)
    (hq : exitUpdate now p = some q) :
    q.wait_start = some ws ∧ q.enter_time = some et ∧ q.exit_time = some now ∧
    ws ≤ et ∧ et ≤ now ∧
    q.wait_time + q.travel_time = q.journey_time := by
  obtain ⟨et', ws', het', hws', hqe⟩ := (exitUpdate_eq_some _ _ _).mp hq
  rw [hen] at het'
  rw [hws] at hws'
  obtain rfl : et = et' := by simpa using het'
  obtain rfl : ws = ws' := by simpa using hws'
  subst hqe
  refine ⟨hws, hen, rfl, h1, h2, ?_⟩
  show (et - ws) + (now - et) = now - ws
  ring

/-- Concrete rider for the C4 witness. -/
def pC4 : Rider :=
  { unique_id := 9, origin := 0, dest := 3, wait_start := some 1,
    enter_time := some 5, comfort := 4 }

/-- The C4 witness rider after exiting at clock 9. -/
def qC4 : Rider := (exitUpdate 9 pC4).getD pC4

/-- Witness for C4 at the concrete rider `pC4`. -/
theorem completed_rider_time_algebra_witness :
    qC4.wait_start = some 1 ∧ qC4.enter_time = some 5 ∧ qC4.exit_time = some 9 ∧
    (1 : ℚ) ≤ 5 ∧ (5 : ℚ) ≤ 9 ∧
    qC4.wait_time + qC4.travel_time = qC4.journey_time := by
  have hsome : (exitUpdate 9 pC4).isSome = true := by decide
  have hq : exitUpdate 9 pC4 = some qC4 := by
    cases h : exitUpdate 9 pC4 with
    | none => rw [h] at hsome; exact absurd hsome (by simp)
    | some x => rw [show qC4 = x by rw [qC4, h]; rfl]
  exact completed_rider_time_algebra pC4 qC4 9 5 1 rfl rfl (by norm_num)
    (by norm_num) hq

/-! ### Move timing (C5) -/

/-- C5.  A move to floor `f` suspends for
`|f − current_floor| * floor_height / speed`, plus the extra delay exactly when
the reliability draw fires (in which case the oracle value lies in `[10, 30]`,
bounding the total); afterwards `current_floor = f` and every other elevator
field is unchanged (the resulting state is literally `e` with only
`current_floor` replaced). -/
theorem move_time_and_floor (e : ElevatorState) (f : ℕ) (delayDraw : Bool)
    (extra : ℚ) (hex : delayDraw = true → 10 ≤ extra ∧ extra ≤ 30) :
    (move_to e f delayDraw extra).1
      = |(f : ℚ) - (e.current_floor : ℚ)| * e.floor_height / e.speed
        + (if delayDraw then extra else 0) ∧
    (move_to e f delayDraw extra).2 = { e with current_floor := f } ∧
    (delayDraw = true →
      |(f : ℚ) - (e.current_floor : ℚ)| * e.floor_height / e.speed + 10
        ≤ (move_to e f delayDraw extra).1 ∧
      (move_to e f delayDraw extra).1
        ≤ |(f : ℚ) - (e.current_floor : ℚ)| * e.floor_height / e.speed + 30) ∧
    (delayDraw = false →
      (move_to e f delayDraw extra).1
        = |(f : ℚ) - (e.current_floor : ℚ)| * e.floor_height / e.speed) := by
  cases delayDraw with
  | false =>
      refine ⟨by simp [move_to], rfl, by simp, by intro _; simp [move_to]⟩
  | true =>
      obtain ⟨h10, h30⟩ := hex rfl
      refine ⟨by simp [move_to], rfl, ?_, by simp⟩
      intro _
      constructor
      · show _ ≤ |(f : ℚ) - (e.current_floor : ℚ)| * e.floor_height / e.speed + extra
        linarith
      · show |(f : ℚ) - (e.current_floor : ℚ)| * e.floor_height / e.speed + extra ≤ _
        linarith

/-- Witness for C5: a delayed move of the C2 elevator to floor 2. -/
theorem move_time_and_floor_witness :
    (move_to eC2 2 true 20).2 = { eC2 with current_floor := 2 } ∧
    (move_to eC2 2 true 20).1
      = |(2 : ℚ) - (eC2.current_floor : ℚ)| * eC2.floor_height / eC2.speed
        + (if true then (20 : ℚ) else 0) := by
  have h := move_time_and_floor eC2 2 true 20 (fun _ => by norm_num)
  exact ⟨h.2.1, h.1⟩

/-! ### Metrics aggregation (C6) -/

/-- `np.mean` on a nonempty list: sum divided by length. -/
def npMean (xs : List ℚ) : ℚ := xs.sum / (xs.length : ℚ)

/-- `Avg_Wait_Time` reporter (`model.py` lines 187–188): mean of `wait_time`
over `exited_riders`, `0` when that collection is empty. -/
def Avg_Wait_Time (exited : List Rider) : ℚ :=
  if exited.isEmpty then 0 else npMean (exited.map Rider.wait_time)

/-- `Avg_Journey_Time` reporter (`model.py` lines 189–191). -/
def Avg_Journey_Time (exited : List Rider) : ℚ :=
  if exited.isEmpty then 0 else npMean (exited.map Rider.journey_time)

/-- `Avg_Satisfaction` reporter (`model.py` lines 192–194). -/
def Avg_Satisfaction (exited : List Rider) : ℚ :=
  if exited.isEmpty then 0 else npMean (exited.map Rider.satisfaction)

/-- `Crowding` reporter (`model.py` lines 195–203): mean of
`len(passengers)/capacity` over the elevator agents, `0` when there are
none. -/
def Crowding (els : List ElevatorState) : ℚ :=
  if els.isEmpty then 0
  else npMean (els.map (fun e => (e.passengers.length : ℚ) / (e.capacity : ℚ)))

theorem guarded_mean_map {α : Type} (f : α → ℚ) (l : List α) :
    (if l.isEmpty then (0 : ℚ) else npMean (l.map f)) * (l.length : ℚ)
      = (l.map f).sum := by
  cases l with
  | nil => simp
  | cons a t =>
      simp only [List.isEmpty_cons, if_neg Bool.false_ne_true, npMean,
        List.length_map]
      rw [div_mul_cancel₀]
      exact Nat.cast_ne_zero.mpr (by simp)

/-- C6.  Each `Avg_*` metric times the completed-rider count equals the sum of
the corresponding field (hence is the arithmetic mean whenever the collection
is nonempty), `Crowding` times the elevator count equals the sum of the
occupancy ratios, and all four metrics are `0` — not an error — on the empty
collection. -/
theorem metrics_mean_and_empty_zero (exited : List Rider)
    (els : List ElevatorState) :
    Avg_Wait_Time exited * (exited.length : ℚ)
      = (exited.map Rider.wait_time).sum ∧
    Avg_Journey_Time exited * (exited.length : ℚ)
      = (exited.map Rider.journey_time).sum ∧
    Avg_Satisfaction exited * (exited.length : ℚ)
      = (exited.map Rider.satisfaction).sum ∧
    Crowding els * (els.length : ℚ)
      = (els.map (fun e => (e.passengers.length : ℚ) / (e.capacity : ℚ))).sum ∧
    Avg_Wait_Time [] = 0 ∧ Avg_Journey_Time [] = 0 ∧ Avg_Satisfaction [] = 0 ∧
    Crowding [] = 0 := by
  refine ⟨?_, ?_, ?_, ?_, rfl, rfl, rfl, rfl⟩
  · exact guarded_mean_map Rider.wait_time exited
  · exact guarded_mean_map Rider.journey_time exited
  · exact guarded_mean_map Rider.satisfaction exited
  · exact guarded_mean_map (fun e => (e.passengers.length : ℚ) / (e.capacity : ℚ)) els

/-! ### Randomness sources of the rider-generation process (C7)

`BuildingModel.generate_riders` (`model.py` lines 210–230) draws its
inter-arrival gap from `np.random.exponential(rate)` — the NumPy *global*
generator — while the origin, destination and elevator choices (and, in
`move_to`, the reliability and uniform-delay draws) come from the Python
`random` *module* generator.  These are two independent global generators;
the engine seeds neither.  We embed one generator-iteration as a pure function
of the two underlying variate streams. -/

/-- Configuration visible to `generate_riders`. -/
structure GenConfig where
  peak_hour : Bool
  N_floors : ℕ
  N_elevators : ℕ
  deriving Repr, DecidableEq

/-- `rate = 12 if self.peak_hour else 45` (`model.py` line 213). -/
def arrivalRate (peak_hour : Bool) : ℚ := if peak_hour then 12 else 45

/-- One iteration of `generate_riders` as a function of the two generator
streams.  `npv n` is the n-th unit-mean exponential variate of the NumPy
global generator, so `np.random.exponential(rate)` is `rate * npv n`;
`py m` abstracts the Python `random` generator's draws, with
`random.choice` from a `k`-element list modelled as indexing by `py m % k`
(iteration `n` consumes `py (3n)`, `py (3n+1)`, `py (3n+2)` for origin,
destination and elevator).  The destination is chosen from
`[f for f in range(N_floors) if f != origin]`, whose `k`-th element is `k`
when `k < origin` and `k+1` otherwise.  Returns
(clock advance, origin, dest, elevator index). -/
def genIter (c : GenConfig) (npv : ℕ → ℚ) (py : ℕ → ℕ) (n : ℕ) :
    ℚ × ℕ × ℕ × ℕ :=
  let inter_arrival := arrivalRate c.peak_hour * npv n
  let origin := py (3 * n) % c.N_floors
  let destIdx := py (3 * n + 1) % (c.N_floors - 1)
  let dest := if destIdx < origin then destIdx else destIdx + 1
  let elev := py (3 * n + 2) % c.N_elevators
  (inter_arrival, origin, dest, elev)

/-- Default configuration for the C7 counterexample. -/
def cfgC7 : GenConfig := { peak_hour := false, N_floors := 6, N_elevators := 2 }

/-- First NumPy-stream valuation for the C7 counterexample. -/
def npvA : ℕ → ℚ := fun _ => 1

/-- Second NumPy-stream valuation for the C7 counterexample. -/
def npvB : ℕ → ℚ := fun _ => 2

/-- Shared Python-`random` stream for the C7 counterexample. -/
def pyZ : ℕ → ℕ := fun _ => 0

/-- C7 counterexample.  The claim would make the run a function of one
seedable generator; but two runs with identical configuration and an identical
Python-`random` stream, differing only in the NumPy global generator's stream,
already produce different clock advances at the very first iteration — the
engine draws from two independent generators (`random` and `np.random`), not
one. -/
theorem randomness_not_single_generator :
    genIter cfgC7 npvA pyZ 0 ≠ genIter cfgC7 npvB pyZ 0 := by
  intro h
  have h1 : (genIter cfgC7 npvA pyZ 0).1 = (genIter cfgC7 npvB pyZ 0).1 := by
    rw [h]
  have : (45 : ℚ) * 1 = 45 * 2 := h1
  norm_num at this

/-- C7 amended.  All randomness in one generator-iteration is a function of
exactly the two global generator streams: fixing the configuration and both
streams fixes the draws, and the clock advance equals `rate * npv n`, i.e. it
is driven by the NumPy stream (so reproducibility requires seeding both
generators, not a single one). -/
theorem generator_determinism_two_streams (c : GenConfig)
    (npv1 npv2 : ℕ → ℚ) (py1 py2 : ℕ → ℕ) (n : ℕ)
    (h1 : npv1 = npv2) (h2 : py1 = py2) :
    genIter c npv1 py1 n = genIter c npv2 py2 n ∧
    (genIter c npv1 py1 n).1 = arrivalRate c.peak_hour * npv1 n := by
  subst h1
  subst h2
  exact ⟨rfl, rfl⟩

/-- Witness for the amended C7 at concrete streams. -/
theorem generator_determinism_two_streams_witness :
    genIter cfgC7 npvA pyZ 0 = genIter cfgC7 npvA pyZ 0 ∧
    (genIter cfgC7 npvA pyZ 0).1 = arrivalRate cfgC7.peak_hour * npvA 0 :=
  generator_determinism_two_streams cfgC7 npvA npvA pyZ pyZ 0 rfl rfl

/-! ### Construction performs no range validation (C9) -/

/-- Construction parameters of `BuildingModel.__init__` with the source's
default values (`model.py` lines 146–157). -/
structure BuildingParams where
  N_floors : ℕ := 6
  N_elevators : ℕ := 2
  peak_hour : Bool := false
  backup_power : Bool := true
  door_time : ℚ := 53/5
  capacity : ℕ := 16
  vibration : ℚ := 101/100
  noise : ℚ := 559/10
  speed : ℚ := 3
  deriving Repr

/-- The documented valid ranges of the construction parameters (spec §6:
floors [2,30], elevators [1,8], door time [5,25], capacity [8,30], vibration
[0.5,3], noise [40,80], speed [1,6]). -/
def inRange (p : BuildingParams) : Prop :=
  (2 ≤ p.N_floors ∧ p.N_floors ≤ 30) ∧
  (1 ≤ p.N_elevators ∧ p.N_elevators ≤ 8) ∧
  (5 ≤ p.door_time ∧ p.door_time ≤ 25) ∧
  (8 ≤ p.capacity ∧ p.capacity ≤ 30) ∧
  (1/2 ≤ p.vibration ∧ p.vibration ≤ 3) ∧
  (40 ≤ p.noise ∧ p.noise ≤ 80) ∧
  (1 ≤ p.speed ∧ p.speed ≤ 6)

/-- `BuildingModel.__init__` (`model.py` lines 146–208): build the lobby dict
for floors `0..N_floors−1`, the `N_elevators` identical initial elevators and
the empty completed collection.  The body contains no validation and no
failure path whatsoever; the `Except` wrapper makes "refused" (`.error`)
expressible, and the source never produces it. -/
def buildingInit (p : BuildingParams) : Except String BuildingState :=
  .ok
    { lobby_waiting := List.replicate p.N_floors []
      elevators := List.replicate p.N_elevators
        (initElevator p.capacity p.speed p.vibration p.noise p.door_time)
      exited_riders := [] }

/-- Out-of-range parameters for the C9 counterexample: 1 floor (below the
documented minimum of 2) and 0 elevators (below the minimum of 1). -/
def pC9 : BuildingParams := { N_floors := 1, N_elevators := 0 }

/-- C9 counterexample.  `pC9` is outside the documented ranges, yet
construction succeeds: the engine performs no validation and never refuses. -/
theorem construction_not_refused_out_of_range :
    ¬ inRange pC9 ∧ (buildingInit pC9).isOk = true :=
  ⟨fun hr => absurd hr.1.1 (by decide), rfl⟩

/-- C9 amended.  Construction never fails, in-range or not: the engine leaves
range validation to the caller (the dashboard's sliders), exactly as spec §6
states; for any parameters it returns the building with `N_floors` empty
lobbies, `N_elevators` identical initial elevators and no completed riders. -/
theorem construction_never_refused (p : BuildingParams) (h : ¬ inRange p) :
    (buildingInit p).isOk = true ∧
    buildingInit p = .ok
      { lobby_waiting := List.replicate p.N_floors []
        elevators := List.replicate p.N_elevators
          (initElevator p.capacity p.speed p.vibration p.noise p.door_time)
        exited_riders := [] } :=
  ⟨rfl, rfl⟩

/-- Witness for the amended C9 at the out-of-range parameters `pC9`. -/
theorem construction_never_refused_witness :
    (buildingInit pC9).isOk = true ∧
    buildingInit pC9 = .ok
      { lobby_waiting := List.replicate pC9.N_floors []
        elevators := List.replicate pC9.N_elevators
          (initElevator pC9.capacity pC9.speed pC9.vibration pC9.noise pC9.door_time)
        exited_riders := [] } :=
  construction_never_refused pC9 (fun hr => absurd hr.1.1 (by decide))

/-! ### One full service cycle of `ElevatorAgent.run` (C8, C10)

`run()` blocks on the request queue; on receiving a floor it moves, waits the
door time, unloads, loads from that floor's lobby, recomputes comfort, and
then sweeps the sorted distinct destinations of the current passengers
(skipping the request floor), repeating move→door→unload→comfort at each.
The random draws are supplied by an oracle: `delay`/`extra` indexed by the
move counter, `gauss` indexed by the comfort-recompute counter and passenger
position. -/

/-- Oracle for all random draws consumed during one service cycle. -/
structure ServeOracle where
  delay : ℕ → Bool
  extra : ℕ → ℚ
  gauss : ℕ → ℕ → ℚ

/-- State threaded through a service cycle: the elevator, the request floor's
lobby, the riders completed during the cycle, the virtual clock, and the two
draw counters. -/
structure CycleState where
  e : ElevatorState
  lobby : List Rider
  exited : List Rider
  clock : ℚ
  moveIdx : ℕ
  comfortIdx : ℕ
  deriving Repr, DecidableEq

/-- One sweep stop at destination `d` (`run` lines 132–138): move, door,
unload, recompute comfort.  No loading happens on sweep stops. -/
def sweepVisit (O : ServeOracle) (d : ℕ) (s : CycleState) : Option CycleState :=
  let mv := move_to s.e d (O.delay s.moveIdx) (O.extra s.moveIdx)
  let t1 := s.clock + mv.1 + mv.2.door_time
  (unload mv.2.passengers d t1).map (fun pr =>
    { e := update_comfort { mv.2 with passengers := pr.1 } (O.gauss s.comfortIdx)
      lobby := s.lobby
      exited := s.exited ++ pr.2
      clock := t1
      moveIdx := s.moveIdx + 1
      comfortIdx := s.comfortIdx + 1 })

/-- The sweep loop over the remaining destination list. -/
def sweep (O : ServeOracle) : List ℕ → CycleState → Option CycleState
  | [], s => some s
  | d :: ds, s => (sweepVisit O d s).bind (sweep O ds)

/-- One full service cycle of `ElevatorAgent.run` (lines 108–138) for a
request at `floor`, starting at clock `t0` with the given request-floor
lobby. -/
def serveRequest (O : ServeOracle) (e : ElevatorState) (lobby : List Rider)
    (t0 : ℚ) (floor : ℕ) : Option CycleState :=
  let mv := move_to e floor (O.delay 0) (O.extra 0)
  let t1 := t0 + mv.1 + mv.2.door_time
  (unload mv.2.passengers floor t1).bind (fun pr =>
    let el := load { mv.2 with passengers := pr.1 } lobby t1
    let e4 := update_comfort el.1 (O.gauss 0)
    let dests := (List.insertionSort (· ≤ ·)
        (e4.passengers.map Rider.dest).dedup).filter (fun d => decide (¬ d = floor))
    sweep O dests
      { e := e4, lobby := el.2, exited := pr.2, clock := t1,
        moveIdx := 1, comfortIdx := 1 })

/-- A comfort write never changes a passenger's destination list. -/
theorem map_dest_mapIdx (l : List Rider) :
    ∀ f : ℕ → Rider → ℚ,
      ((l.mapIdx (fun i p => { p with comfort := f i p })).map Rider.dest)
        = l.map Rider.dest := by
  induction l with
  | nil => intro f; rfl
  | cons a t ih => intro f; simp only [List.mapIdx_cons, List.map_cons, ih]

theorem update_comfort_map_dest (e : ElevatorState) (g : ℕ → ℚ) :
    (update_comfort e g).passengers.map Rider.dest
      = e.passengers.map Rider.dest := by
  unfold update_comfort
  split
  · rfl
  · exact map_dest_mapIdx e.passengers _

/-- After sweeping a destination list covering every passenger's destination,
the cabin is empty. -/
theorem sweep_covers_empties (O : ServeOracle) :
    ∀ (ds : List ℕ) (s s' : CycleState),
      sweep O ds s = some s' →
      (∀ p ∈ s.e.passengers, p.dest ∈ ds) →
      s'.e.passengers = [] := by
  intro ds
  induction ds with
  | nil =>
      intro s s' hrun hcov
      obtain rfl : s = s' := Option.some_inj.mp hrun
      exact List.eq_nil_iff_forall_not_mem.mpr
        (fun p hp => by simpa using hcov p hp)
  | cons d ds ih =>
      intro s s' hrun hcov
      rw [show sweep O (d :: ds) s = (sweepVisit O d s).bind (sweep O ds)
        from rfl] at hrun
      cases hv : sweepVisit O d s with
      | none => rw [hv] at hrun; simp at hrun
      | some s1 =>
          rw [hv, Option.some_bind] at hrun
          refine ih s1 s' hrun ?_
          intro p' hp'
          unfold sweepVisit at hv
          simp only [] at hv
          cases hu : unload (move_to s.e d (O.delay s.moveIdx)
              (O.extra s.moveIdx)).2.passengers d
              (s.clock + (move_to s.e d (O.delay s.moveIdx) (O.extra s.moveIdx)).1
                + (move_to s.e d (O.delay s.moveIdx) (O.extra s.moveIdx)).2.door_time) with
          | none => rw [hu] at hv; simp at hv
          | some pr =>
              rw [hu] at hv
              have hs1 := Option.some_inj.mp hv
              obtain ⟨hrem, -⟩ := (unload_eq_some _ _ _ _ _).mp hu
              have hmv : (move_to s.e d (O.delay s.moveIdx)
                  (O.extra s.moveIdx)).2.passengers = s.e.passengers := rfl
              have hdest : p'.dest ∈ s1.e.passengers.map Rider.dest :=
                List.mem_map_of_mem Rider.dest hp'
              rw [← hs1] at hdest
              have hdest2 : p'.dest ∈ pr.1.map Rider.dest := by
                simpa [update_comfort_map_dest] using hdest
              rw [hrem, hmv] at hdest2
              obtain ⟨q, hq, hqd⟩ := List.mem_map.mp hdest2
              obtain ⟨hqmem, hqne⟩ := List.mem_filter.mp hq
              have hqin := hcov q hqmem
              have hqne' : ¬ q.dest = d := by simpa using hqne
              rw [← hqd]
              cases List.mem_cons.mp hqin with
              | inl h => exact absurd h hqne'
              | inr h => exact h

/-- C10.  A service cycle that starts with an empty cabin (the state in which
`run()` blocks on its request queue) ends with an empty cabin: every rider
loaded at the stop floor has a destination in the sweep set computed after
loading (its lobby is its origin floor and generation guarantees
`dest ≠ origin`), so the sweep unloads them all before the elevator returns to
idle. -/
theorem idle_elevator_empty (O : ServeOracle) (e : ElevatorState)
    (lobby : List Rider) (t0 : ℚ) (floor : ℕ) (s : CycleState)
    (hstart : e.passengers = [])
    (hl : ∀ r ∈ lobby, r.origin = floor)
    (hod : ∀ r ∈ lobby, ¬ r.dest = r.origin)
    (hrun : serveRequest O e lobby t0 floor = some s) :
    s.e.passengers = [] := by
  unfold serveRequest at hrun
  simp only [] at hrun
  cases hu : unload (move_to e floor (O.delay 0) (O.extra 0)).2.passengers floor
      (t0 + (move_to e floor (O.delay 0) (O.extra 0)).1
        + (move_to e floor (O.delay 0) (O.extra 0)).2.door_time) with
  | none => rw [hu] at hrun; simp at hrun
  | some pr =>
      rw [hu, Option.some_bind] at hrun
      refine sweep_covers_empties O _ _ s hrun ?_
      intro p hp
      -- the passengers after loading are the stamped lobby prefix
      have hmv : (move_to e floor (O.delay 0) (O.extra 0)).2.passengers
          = e.passengers := rfl
      obtain ⟨hrem, -⟩ := (unload_eq_some _ _ _ _ _).mp hu
      rw [hmv, hstart] at hrem
      have hdest : p.dest ∈ (update_comfort
          (load { (move_to e floor (O.delay 0) (O.extra 0)).2 with
            passengers := pr.1 } lobby
            (t0 + (move_to e floor (O.delay 0) (O.extra 0)).1
              + (move_to e floor (O.delay 0) (O.extra 0)).2.door_time)).1
          (O.gauss 0)).passengers.map Rider.dest :=
        List.mem_map_of_mem Rider.dest hp
      rw [update_comfort_map_dest] at hdest
      have hload : (load { (move_to e floor (O.delay 0) (O.extra 0)).2 with
          passengers := pr.1 } lobby
          (t0 + (move_to e floor (O.delay 0) (O.extra 0)).1
            + (move_to e floor (O.delay 0) (O.extra 0)).2.door_time)).1.passengers.map
            Rider.dest
          = (lobby.take ((move_to e floor (O.delay 0) (O.extra 0)).2.capacity
              - pr.1.length)).map Rider.dest := by
        simp only [load, hrem]
        rw [List.map_append, List.map_map]
        rfl
      rw [hload] at hdest
      obtain ⟨q, hq, hqd⟩ := List.mem_map.mp hdest
      have hqlob : q ∈ lobby := List.mem_of_mem_take hq
      have hqne : ¬ p.dest = floor := by
        rw [← hqd, ← hl q hqlob]
        exact hod q hqlob
      -- p.dest is among the sweep destinations
      refine List.mem_filter.mpr ⟨?_, by simpa using hqne⟩
      exact ((List.perm_insertionSort (· ≤ ·) _).mem_iff).mpr
        (List.mem_dedup.mpr (List.mem_map_of_mem Rider.dest hp))

/-! ### The single floor-pair scenario (C8) and the C10 witness

2 floors, 1 elevator, capacity 1, `door_time = 10.6`, `speed = 3.0`, no
reliability extra-delay draw; one rider appears at floor 0 destined for
floor 1 while the elevator idles at floor 0; the request is served starting
at clock 0. -/

/-- Scenario oracle: the reliability test never fires, Gaussian comfort noise
is 0. -/
def OC8 : ServeOracle :=
  { delay := fun _ => false, extra := fun _ => 0, gauss := fun _ _ => 0 }

/-- The scenario rider, waiting since clock 0. -/
def rC8 : Rider := { unique_id := 1, origin := 0, dest := 1, wait_start := some 0 }

/-- The scenario elevator: capacity 1, speed 3, idle at floor 0. -/
def eC8 : ElevatorState := initElevator 1 3 (101/100) (559/10) (53/5)

/-- The exact final cycle state of the scenario, computed by hand along
`run()`: board at `t = 10.6` (after the door wait), arrive at floor 1 at
`10.6 + 3.5/3`, exit after the second door wait at `671/30 = 2·10.6 + 7/6`. -/
def xC8 : CycleState :=
  { e := { capacity := 1, speed := 3, floor_height := 7/2, current_floor := 1,
           passengers := [], door_time := 53/5, reliability := 97/100,
           vibration_level := 101/100, noise_level := 559/10 }
    lobby := []
    exited := [{ unique_id := 1, origin := 0, dest := 1, wait_start := some 0,
                 wait_time := 53/5, travel_time := 353/30, journey_time := 671/30,
                 enter_time := some (53/5), exit_time := some (671/30),
                 satisfaction := 1447/300, perceived_quality := 1, comfort := 1 }]
    clock := 671/30
    moveIdx := 2
    comfortIdx := 2 }

/-- The scenario cycle evaluates exactly to `xC8`. -/
theorem serveC8_eq : serveRequest OC8 eC8 [rC8] 0 0 = some xC8 := by
  norm_num [serveRequest, sweep, sweepVisit, move_to, unload, exitUpdate, load,
    update_comfort, initElevator, OC8, rC8, eC8, xC8, List.insertionSort,
    List.orderedInsert, List.mapM_cons, List.mapM_nil, List.mapM, List.mapM.loop,
    List.dedup_cons_of_not_mem, Option.bind_eq_bind, Option.some_bind,
    Option.map_some, List.filter_cons, List.mapIdx_cons, CycleState.mk.injEq,
    ElevatorState.mk.injEq, Rider.mk.injEq]

/-- C8 counterexample.  In the scenario the completed rider's `wait_time` is
`10.6` (not ≈ 0: the door cycle runs before boarding even though the elevator
is already at the origin floor) and `journey_time` is `671/30 ≈ 22.37`
(not ≈ `1.167 + 10.6 = 11.77`): both are a full `door_time = 10.6` above the
claimed values, far beyond any floating-point tolerance (read here as ±1 s). -/
theorem scenario_wait_journey_refuted :
    serveRequest OC8 eC8 [rC8] 0 0 = some xC8 ∧
    xC8.exited.map Rider.wait_time = [53/5] ∧
    xC8.exited.map Rider.journey_time = [671/30] ∧
    ¬ ((53/5 : ℚ) < 1 ∧ |(671/30 : ℚ) - (7/6 + 53/5)| < 1) :=
  ⟨serveC8_eq, rfl, rfl, by norm_num⟩

/-- C8 amended.  In the scenario the rider completes with
`wait_time = door_time = 10.6` (boarding happens only after the first door
wait), `travel_time = 3.5/3 + 10.6` and
`journey_time = 3.5/3 + 2 × 10.6 ≈ 22.37` (one move plus both door cycles);
the elevator ends at floor 1 with an empty cabin and the lobby is empty. -/
theorem scenario_trace_values :
    serveRequest OC8 eC8 [rC8] 0 0 = some xC8 ∧
    xC8.exited.map Rider.wait_time = [53/5] ∧
    xC8.exited.map Rider.travel_time = [7/6 + 53/5] ∧
    xC8.exited.map Rider.journey_time = [7/6 + 2 * (53/5)] ∧
    xC8.e.current_floor = 1 ∧ xC8.e.passengers = [] ∧ xC8.lobby = [] :=
  ⟨serveC8_eq, rfl, by norm_num [xC8], by norm_num [xC8], rfl, rfl, rfl⟩

/-- Witness for C10 at the concrete scenario cycle. -/
theorem idle_elevator_empty_witness : xC8.e.passengers = [] :=
  idle_elevator_empty OC8 eC8 [rC8] 0 0 xC8 rfl
    (by intro r hr; rw [List.mem_singleton] at hr; rw [hr]; rfl)
    (by intro r hr; rw [List.mem_singleton] at hr; rw [hr]; decide)
    serveC8_eq

end VTS
